import Mathlib

/-!
Verification of the Conversation Orchestration Engine of the Codai repository.

The Lean definitions below are a shallow embedding of the Python source:

* `src/files_context.py` — the Context Cache (`FilesContext`);
* `src/codai.py` — the Conversation Store (`Conversation.get_messages_for_api`),
  the Response Orchestrator (`generate_response` and its helpers
  `handle_max_tokens_exceeded`, `process_claude_response`,
  `_handle_tool_results`);
* `src/initial_review.py` — the pre-filter decision of
  `InitialReview.assess_simplicity_clarity`;
* `src/wise_counsel.py` — `WiseCounsel.review_response` and its tag parsing.

Remote model calls, tool executions, the system clock and the filesystem are
external effects; they are modelled as oracle streams / function parameters.
`datetime` timestamps are modelled as `Nat` (only their total order is used).
-/

namespace Codai

/-- Role of a conversation message: the Python code uses the strings
`"user"` and `"assistant"`. -/
inductive Role where
  | user
  | assistant
  deriving DecidableEq, Repr

/-- The `type` field of a content-block dict: `"text"`, `"tool_use"` or
`"tool_result"`. -/
inductive BType where
  | text
  | tool_use
  | tool_result
  deriving DecidableEq, Repr

/-- Structured stand-in for the JSON string stored in the `content` field of a
`tool_result` block.  The Python code produces it with `json.dumps`; we keep
the payload structured instead of serialising it, since no code inspects the
serialised text. -/
inductive TRContent where
  | noContent
  | cachedRef (filePath toolName : String)
  | unavailableRef (filePath toolName : String)
  | rawPayload (fields : List (String × String))
  | errorPayload (error : String)
  deriving DecidableEq, Repr

/-- A content-block dict.  The Python blocks are flat dicts whose keys depend
on `type`; we keep one record with defaulted fields.  `cacheControl` models
the presence of the `"cache_control": ("type": "ephemeral")` entry. -/
structure BlockObj where
  btype : BType
  text : String := ""
  name : String := ""
  toolUseId : String := ""
  resultContent : TRContent := TRContent.noContent
  isError : Bool := false
  cacheControl : Bool := false
  deriving DecidableEq, Repr

/-- An element of a message's content list: either a dict block or a raw
scalar (the Python code guards `isinstance(msg["content"][0], dict)`). -/
inductive Item where
  | obj (b : BlockObj)
  | raw (s : String)
  deriving DecidableEq, Repr

/-- The `content` of a message: either a single scalar text or a list of
blocks. -/
inductive Content where
  | scalar (s : String)
  | blocks (items : List Item)
  deriving DecidableEq, Repr

/-- One conversation message, as stored in `Conversation.messages`. -/
structure Msg where
  role : Role
  content : Content
  deriving DecidableEq, Repr

/-! ## Context Cache — src/files_context.py -/

/-- One tracked file artifact.  Models one key of the three parallel dicts
`files`, `last_modified` and `modification_source` of the Python
`FilesContext`; `mtime` is the `datetime` timestamp as a `Nat`. -/
structure FileEntry where
  path : String
  content : String
  mtime : Nat
  source : String
  deriving DecidableEq, Repr

/-- The Context Cache: insertion-ordered entries (Python dicts preserve
insertion order) plus the optional last-API-call timestamp. -/
structure FilesContext where
  entries : List FileEntry
  lastApiCall : Option Nat
  deriving DecidableEq, Repr

/-- Embeds `FilesContext.update_file_in_context`: a dict overwrite keeps the
insertion position of an existing key, a fresh key is appended. -/
def update_file_in_context (ctx : FilesContext) (relative_path file_content source : String)
    (now : Nat) : FilesContext :=
  if ctx.entries.any (fun e => e.path == relative_path) then
    { ctx with entries := ctx.entries.map (fun e =>
        if e.path == relative_path then
          { e with content := file_content, mtime := now, source := source }
        else e) }
  else
    { ctx with entries := ctx.entries ++ [⟨relative_path, file_content, now, source⟩] }

/-- Embeds `FilesContext.update_last_api_call_timestamp`. -/
def update_last_api_call_timestamp (ctx : FilesContext) (now : Nat) : FilesContext :=
  { ctx with lastApiCall := some now }

/-- The classification predicate of `split_files_for_api_context`:
`if self.last_api_call and self.last_modified[relative_path] > self.last_api_call`.
When `last_api_call` is `None` the conjunction is falsy, so the entry is NOT
classified as new/modified. -/
def isNewModified (ctx : FilesContext) (e : FileEntry) : Bool :=
  match ctx.lastApiCall with
  | some t => decide (t < e.mtime)
  | none => false

/-- Comparison used by both `list.sort(key=lambda x: self.last_modified[x[0]])`
calls: ascending modification time. -/
def mtimeLe (a b : FileEntry) : Prop :=
  a.mtime ≤ b.mtime

instance : DecidableRel mtimeLe := fun a b => Nat.decLe a.mtime b.mtime

/-- The two entry lists built by the loop of `split_files_for_api_context`,
each sorted by ascending modification time.  The Python loop distributes each
`self.files` item into exactly one of the two lists in iteration order, which
is the same as filtering twice; `list.sort` is a stable ascending sort, which
we embed as `List.insertionSort` (stable and structurally recursive). -/
def splitEntries (ctx : FilesContext) : List FileEntry × List FileEntry :=
  (List.insertionSort mtimeLe (ctx.entries.filter (fun e => !isNewModified ctx e)),
   List.insertionSort mtimeLe (ctx.entries.filter (fun e => isNewModified ctx e)))

/-- Embeds `FilesContext.split_files_for_api_context`: returns the
`(existing_files, new_modified_files)` pair of `(relative_path, file_content)`
tuples. -/
def split_files_for_api_context (ctx : FilesContext) :
    List (String × String) × List (String × String) :=
  ((splitEntries ctx).1.map (fun e => (e.path, e.content)),
   (splitEntries ctx).2.map (fun e => (e.path, e.content)))

/-- Modification time of a tracked path, looked up the way the Python sort key
`self.last_modified[x[0]]` does (first entry with that path; paths are unique
dict keys). -/
def mtimeOf (ctx : FilesContext) (p : String) : Nat :=
  match ctx.entries.find? (fun e => e.path == p) with
  | some e => e.mtime
  | none => 0

/-! ## Conversation Store — `Conversation.get_messages_for_api` in src/codai.py -/

/-- The per-message annotation step of `get_messages_for_api` (the body of the
`for i in last_two_user_indices` loop): set `cache_control` on the first
content block, wrapping a scalar (or a raw non-dict first element) into a text
block first. -/
def annotateCacheControl (m : Msg) : Msg :=
  match m.content with
  | Content.blocks (Item.obj b :: rest) =>
      { m with content := Content.blocks (Item.obj { b with cacheControl := true } :: rest) }
  | Content.blocks (Item.raw s :: rest) =>
      { m with content :=
          Content.blocks (Item.obj { btype := BType.text, text := s, cacheControl := true } :: rest) }
  | Content.blocks [] => m
  | Content.scalar s =>
      { m with content :=
          Content.blocks [Item.obj { btype := BType.text, text := s, cacheControl := true }] }

/-- Embeds `Conversation.get_messages_for_api`.  Note that the Python code
computes `last_two_user_indices` with `list.index`, which returns the index of
the FIRST list element equal to its argument. -/
def get_messages_for_api (msgs : List Msg) : List Msg :=
  let userMessages := msgs.filter (fun m => m.role == Role.user)
  let lastTwoUserIndices :=
    (userMessages.drop (userMessages.length - 2)).map (fun m => msgs.indexOf m)
  lastTwoUserIndices.foldl (fun acc i => List.modify annotateCacheControl i acc) msgs

/-- A message carries the cache-anchor annotation when its first content block
is a dict with `cache_control` set. -/
def isAnnotated (m : Msg) : Bool :=
  match m.content with
  | Content.blocks (Item.obj b :: _) => b.cacheControl
  | _ => false

/-! ## Quality Reviewer — src/wise_counsel.py and src/initial_review.py -/

/-- Case-insensitive prefix test on character lists (used to model
`re.IGNORECASE` tag matching). -/
def lowerStartsWith : List Char → List Char → Bool
  | [], _ => true
  | _ :: _, [] => false
  | p :: ps, c :: cs => (p.toLower == c.toLower) && lowerStartsWith ps cs

/-- Index of the first position where the pattern occurs (case-insensitively),
the way `re.search` finds the leftmost match. -/
def lowerFindSub (pat : List Char) : List Char → Option Nat
  | [] => if pat.isEmpty then some 0 else none
  | c :: cs =>
      if lowerStartsWith pat (c :: cs) then some 0
      else
        match lowerFindSub pat cs with
        | some n => some (n + 1)
        | none => none

/-- Case-sensitive prefix test on character lists. -/
def startsWithChars : List Char → List Char → Bool
  | [], _ => true
  | _ :: _, [] => false
  | p :: ps, c :: cs => (p == c) && startsWithChars ps cs

/-- Python `str.strip()`: drop leading and trailing whitespace.  This is a
structural implementation (unlike `String.trim`, whose byte-position
recursion the kernel cannot reduce), so concrete runs evaluate by `decide`. -/
def stripChars (s : String) : String :=
  String.mk (((s.toList.dropWhile Char.isWhitespace).reverse.dropWhile Char.isWhitespace).reverse)

/-- Python `str.upper()` over the character list. -/
def upperChars (s : String) : String :=
  String.mk (s.toList.map Char.toUpper)

/-- Embeds the search
`re.search(r'<approval_status>(.*?)</approval_status>', review_text, re.IGNORECASE | re.DOTALL)`
of `WiseCounsel.review_response`: the group is the text between the first
opening tag and the first closing tag after it.  (If no closing tag follows
the first opening tag, none follows any later opening tag either, so the
regex has no match at all — returning `none` is faithful.) -/
def extractApprovalStatus (reviewText : String) : Option String :=
  let s := reviewText.toList
  let openTag := "<approval_status>".toList
  let closeTag := "</approval_status>".toList
  match lowerFindSub openTag s with
  | none => none
  | some i =>
    let rest := s.drop (i + openTag.length)
    match lowerFindSub closeTag rest with
    | none => none
    | some j => some (String.mk (rest.take j))

/-- Embeds the feedback search
`re.search(r'<approval_status>.*?</approval_status>\s*(.*?)\s*</final_verdict>', ...)`:
the text between the close of the first approval block and the first
`</final_verdict>` after it.  The surrounding `\s*` of the regex only trims
whitespace that `.strip()` (applied by the caller to the group) removes
anyway, so we return the trimmed text. -/
def extractFeedback (reviewText : String) : Option String :=
  let s := reviewText.toList
  let openTag := "<approval_status>".toList
  let closeTag := "</approval_status>".toList
  let fvTag := "</final_verdict>".toList
  match lowerFindSub openTag s with
  | none => none
  | some i =>
    let rest := s.drop (i + openTag.length)
    match lowerFindSub closeTag rest with
    | none => none
    | some j =>
      let after := rest.drop (j + closeTag.length)
      match lowerFindSub fvTag after with
      | none => none
      | some k => some (stripChars (String.mk (after.take k)))

/-- Digit-list to number, as `int()` on a `\d+` group. -/
def digitsToNat (ds : List Char) : Nat :=
  ds.foldl (fun n c => n * 10 + (c.toNat - 48)) 0

/-- Match attempt for the tail of the total-score pattern at a fixed position:
after the literal `<total_score>total score:` consume `\s*`, then `\d+`, then
the literal `</total_score>`.  The character classes are disjoint, so greedy
matching needs no backtracking. -/
def scoreTailAt (s : List Char) : Option Nat :=
  let rest := s.dropWhile (fun c => c.isWhitespace)
  let digits := rest.takeWhile Char.isDigit
  if digits.isEmpty then none
  else if startsWithChars "</total_score>".toList (rest.drop digits.length) then
    some (digitsToNat digits)
  else none

/-- Embeds `re.search(r'<total_score>total score:\s*(\d+)</total_score>', review_text)`
(case-sensitive): leftmost position where the whole pattern matches. -/
def findTotalScore : List Char → Option Nat
  | [] => none
  | c :: cs =>
      if startsWithChars "<total_score>total score:".toList (c :: cs) then
        match scoreTailAt ((c :: cs).drop "<total_score>total score:".length) with
        | some n => some n
        | none => findTotalScore cs
      else findTotalScore cs

/-- The dict returned by `WiseCounsel.review_response`. -/
structure ReviewResult where
  approved : Bool
  feedback : String
  fullReview : String
  totalScore : Nat
  deriving DecidableEq, Repr

/-- Outcome of the inner review model call: either the extracted review text,
or an exception raised anywhere inside the `try` block. -/
inductive ReviewCall where
  | ok (reviewText : String)
  | exn (message : String)
  deriving DecidableEq, Repr

/-- Embeds `WiseCounsel.review_response`: parses the critic text; a missing
approval tag yields `approved := false`; any exception is caught and turned
into the fixed not-approved dict (the function never re-raises). -/
def review_response (call : ReviewCall) : ReviewResult :=
  match call with
  | ReviewCall.exn e =>
      { approved := false
        feedback := "An error occurred during the review process."
        fullReview := e
        totalScore := 0 }
  | ReviewCall.ok reviewText =>
      let approved :=
        match extractApprovalStatus reviewText with
        | some status => upperChars (stripChars status) == "APPROVED"
        | none => false
      let feedback :=
        match extractFeedback reviewText with
        | some fb => fb
        | none => ""
      let totalScore :=
        match findTotalScore reviewText.toList with
        | some n => n
        | none => 0
      { approved := approved, feedback := feedback,
        fullReview := reviewText, totalScore := totalScore }

/-- Embeds the pre-filter decision of
`InitialReview.assess_simplicity_clarity`:
`proceed_with_wise_counsel = user_score < 50 and ai_score < 60`. -/
def proceed_with_wise_counsel_decision (userScore aiScore : Nat) : Bool :=
  decide (userScore < 50) && decide (aiScore < 60)

/-! ## Tool Bridge result folding — `_handle_tool_results` in src/codai.py -/

/-- A tool's flat result dict.  The mandatory boolean `is_error` entry is kept
apart from the string-valued entries; its key `"is_error"` does not contain
the substring `"file"`, so keeping it apart does not affect the key scan. -/
structure ToolPayload where
  fields : List (String × String)
  isError : Bool := false
  deriving DecidableEq, Repr

/-- One element of the list built by `_process_tool_use` and consumed by
`_handle_tool_results`. -/
structure ToolCallResult where
  toolUseId : String
  toolName : String
  result : ToolPayload
  deriving DecidableEq, Repr

/-- Does the key contain `"file"` case-insensitively
(`'file' in key.lower()`)? -/
def keyHasFile (k : String) : Bool :=
  (lowerFindSub "file".toList k.toList).isSome

/-- Embeds the path-resolution lines of `_handle_tool_results`:
collect the keys containing `"file"`, prefer the key literally named
`file_path`, otherwise use the first matching key. -/
def resolve_file_path (fields : List (String × String)) : Option String :=
  let fileKeys := (fields.map Prod.fst).filter keyHasFile
  if fileKeys.contains "file_path" then
    List.lookup "file_path" fields
  else
    match fileKeys with
    | [] => none
    | k :: _ => List.lookup k fields

/-- The filesystem and path-separator effects used by
`_handle_tool_results`: `os.path.isabs`, `os.path.abspath`,
`os.path.relpath`, and `os.path.exists` combined with `open().read()`
(`readFile p = some c` when the file exists and reading succeeds). -/
structure Fs where
  isAbs : String → Bool
  abspath : String → String
  relpath : String → String
  readFile : String → Option String

/-- The durable conversation state mutated by the orchestrator: message
history plus the Context Cache. -/
structure Store where
  messages : List Msg
  filesContext : FilesContext
  deriving DecidableEq, Repr

/-- Embeds `Conversation.add_message`. -/
def add_message (st : Store) (role : Role) (content : Content) : Store :=
  { st with messages := st.messages ++ [⟨role, content⟩] }

/-- Content of the user message that folds one tool result back into the
conversation: a single `tool_result` block. -/
def mkToolResultContent (tuid : String) (rc : TRContent) (isErr : Bool) : Content :=
  Content.blocks [Item.obj { btype := BType.tool_result, toolUseId := tuid,
                             resultContent := rc, isError := isErr }]

/-- The `result_content.get("error", "Unknown error occurred")` lookup. -/
def getErrorField (rc : ToolPayload) : String :=
  match List.lookup "error" rc.fields with
  | some e => e
  | none => "Unknown error occurred"

/-- The Python local `relative_path` is assigned only in the content-available
branch; the state threads its current value (`none` = never assigned).
Reading it while unassigned models Python raising `UnboundLocalError`, which
we embed as `Except.error`. -/
def handle_one_tool_result (fs : Fs) (now : Nat) (st : Store × Option String)
    (tr : ToolCallResult) : Except String (Store × Option String) :=
  let store := st.1
  let relativePathVar := st.2
  let rc := tr.result
  if rc.isError then
    Except.ok (add_message store Role.user
      (mkToolResultContent tr.toolUseId (TRContent.errorPayload (getErrorField rc)) true),
      relativePathVar)
  else
    match resolve_file_path rc.fields with
    | some fp =>
      if fp ≠ "" then
        let fpAbs := if fs.isAbs fp then fp else fs.abspath fp
        let fileContent :=
          match List.lookup "file_content" rc.fields with
          | some c => some c
          | none => fs.readFile fpAbs
        match fileContent with
        | some c =>
          if c ≠ "" then
            let relPath := fs.relpath fpAbs
            let store1 :=
              { store with filesContext :=
                  update_file_in_context store.filesContext relPath c tr.toolName now }
            Except.ok (add_message store1 Role.user
              (mkToolResultContent tr.toolUseId
                (TRContent.cachedRef relPath tr.toolName) false),
              some relPath)
          else
            match relativePathVar with
            | some rp => Except.ok (add_message store Role.user
                (mkToolResultContent tr.toolUseId
                  (TRContent.unavailableRef rp tr.toolName) false),
                relativePathVar)
            | none => Except.error
                "UnboundLocalError: local variable relative_path referenced before assignment"
        | none =>
          match relativePathVar with
          | some rp => Except.ok (add_message store Role.user
              (mkToolResultContent tr.toolUseId
                (TRContent.unavailableRef rp tr.toolName) false),
              relativePathVar)
          | none => Except.error
              "UnboundLocalError: local variable relative_path referenced before assignment"
      else
        Except.ok (add_message store Role.user
          (mkToolResultContent tr.toolUseId (TRContent.rawPayload rc.fields) false),
          relativePathVar)
    | none =>
      Except.ok (add_message store Role.user
        (mkToolResultContent tr.toolUseId (TRContent.rawPayload rc.fields) false),
        relativePathVar)

/-- Embeds `_handle_tool_results`: fold every tool result into the durable
conversation, threading the `relative_path` local across loop iterations. -/
def handle_tool_results (fs : Fs) (now : Nat) (store : Store)
    (results : List ToolCallResult) : Except String Store :=
  match results.foldlM (fun acc tr => handle_one_tool_result fs now acc tr) (store, none) with
  | Except.ok (st, _) => Except.ok st
  | Except.error e => Except.error e

/-! ## Response Orchestrator — `generate_response` in src/codai.py -/

/-- The stop reason of a remote response; the orchestrator only ever tests
equality with `"max_tokens"`. -/
inductive StopReason where
  | end_turn
  | max_tokens
  | other
  deriving DecidableEq, Repr

/-- One content block of a remote response: text, or a tool request. -/
inductive RespBlock where
  | rtext (s : String)
  | rtool (name id : String) (input : List (String × String))
  deriving DecidableEq, Repr

/-- A remote model response. -/
structure Resp where
  stopReason : StopReason
  content : List RespBlock
  deriving DecidableEq, Repr

/-- The `partial_content` accumulation of `handle_max_tokens_exceeded`:
concatenation of the text blocks (no separators). -/
def partialContentOf (r : Resp) : String :=
  r.content.foldl (fun acc b =>
    match b with
    | RespBlock.rtext s => acc ++ s
    | RespBlock.rtool _ _ _ => acc) ""

/-- Embeds `handle_max_tokens_exceeded`: the `(truncation_message,
partial_content)` pair, with the apology prefix, the fenced partial text, and
the explanatory suffix. -/
def handle_max_tokens_exceeded (r : Resp) : String × String :=
  let partialContent := partialContentOf r
  let truncationMessage :=
    "I apologize, but my response was truncated due to reaching the maximum token limit. Here\x27s what I managed to generate before being cut off:\n\n"
    ++ "```\n" ++ partialContent ++ "\n```" ++ "\n\n"
    ++ "To get a complete response, you could try:\n1. Breaking your question into smaller, more focused parts.\n2. Simplifying your query if possible.\n3. If you\x27re working with code or long text, consider sharing only the most relevant portions.\nPlease feel free to rephrase or split your question, and I\x27ll do my best to provide a complete answer."
  (truncationMessage, partialContent)

/-- The assistant-message content built by the loop of
`process_claude_response` (one entry per response block, in order). -/
def assistantContentOf (r : Resp) : List Item :=
  r.content.map (fun b =>
    match b with
    | RespBlock.rtext s => Item.obj { btype := BType.text, text := s }
    | RespBlock.rtool n i _ => Item.obj { btype := BType.tool_use, name := n, toolUseId := i })

/-- The tool-result list built by the same loop: each `tool_use` block is
executed via the tool oracle as it is encountered. -/
def toolResultsOf (toolExec : String → List (String × String) → ToolPayload)
    (r : Resp) : List ToolCallResult :=
  r.content.filterMap (fun b =>
    match b with
    | RespBlock.rtext _ => none
    | RespBlock.rtool n i inp => some { toolUseId := i, toolName := n, result := toolExec n inp })

/-- The `final_response` accumulation of the same loop: each text block
appends its text plus a newline. -/
def finalResponseOf (r : Resp) : String :=
  r.content.foldl (fun acc b =>
    match b with
    | RespBlock.rtext s => acc ++ s ++ "\n"
    | RespBlock.rtool _ _ _ => acc) ""

/-- Result classification of `process_claude_response`: a non-empty tool
result list, a (stripped) final text, or `None`. -/
inductive PCROutcome where
  | toolResults (rs : List ToolCallResult)
  | finalText (s : String)
  | empty
  deriving DecidableEq, Repr

/-- Embeds `process_claude_response`: appends the assistant message (also
when it is empty) to the conversation passed in, then returns tool results if
any, else the stripped final text if the accumulated text is non-empty, else
`None`.  The single Python loop builds the three accumulators independently
block-by-block, which equals the three passes used here. -/
def process_claude_response (toolExec : String → List (String × String) → ToolPayload)
    (r : Resp) (store : Store) : Store × PCROutcome :=
  let store1 := add_message store Role.assistant (Content.blocks (assistantContentOf r))
  let trs := toolResultsOf toolExec r
  if trs ≠ [] then (store1, PCROutcome.toolResults trs)
  else if finalResponseOf r ≠ "" then (store1, PCROutcome.finalText (stripChars (finalResponseOf r)))
  else (store1, PCROutcome.empty)

/-- The `next((msg for msg in reversed(messages) if msg['role'] == 'user'), None)`
lookup of `generate_response`. -/
def lastUserMsg (msgs : List Msg) : Option Msg :=
  msgs.reverse.find? (fun m => m.role == Role.user)

/-- The `is_tool_result` test of `generate_response`: a block list containing
a `tool_result` block.  (A scalar content is never a tool result.) -/
def isToolResultContent (c : Content) : Bool :=
  match c with
  | Content.blocks items => items.any (fun i =>
      match i with
      | Item.obj b => b.btype == BType.tool_result
      | Item.raw _ => false)
  | Content.scalar _ => false

/-- Whether the working copy's last user message is a tool result. -/
def lastUserIsToolResult (msgs : List Msg) : Bool :=
  match lastUserMsg msgs with
  | some m => isToolResultContent m.content
  | none => false

/-- Outcome of one pre-filter call (`InitialReview.assess_simplicity_clarity`):
parsed scores (parse failures yield score 0 per `_parse_assessment`), or an
exception caught inside the method. -/
inductive PrefilterOutcome where
  | scores (userScore aiScore : Nat)
  | exn
  deriving DecidableEq, Repr

/-- The `proceed_with_wise_counsel` entry of the dict returned by
`assess_simplicity_clarity`: the threshold decision on success, `False` when
an exception was caught. -/
def assess_proceed (o : PrefilterOutcome) : Bool :=
  match o with
  | PrefilterOutcome.scores u a => proceed_with_wise_counsel_decision u a
  | PrefilterOutcome.exn => false

/-- Embeds the feedback-annotation step of the rejection branch of
`generate_response`: mutate the LAST message of the WORKING COPY if it is a
user message — append a text block to a block list, concatenate onto a
scalar; otherwise only a warning is logged and nothing changes. -/
def appendFeedback (temp : Store) (feedback : String) : Store :=
  let fbText := "\n[FEEDBACK]: The previous response was not satisfactory. Please revise your answer, considering this feedback: " ++ feedback
  match temp.messages.getLast? with
  | some m =>
    if m.role == Role.user then
      match m.content with
      | Content.blocks items =>
          { temp with messages := temp.messages.dropLast
              ++ [⟨m.role, Content.blocks (items ++ [Item.obj { btype := BType.text, text := fbText }])⟩] }
      | Content.scalar s =>
          { temp with messages := temp.messages.dropLast ++ [⟨m.role, Content.scalar (s ++ fbText)⟩] }
    else temp
  | none => temp

/-- Per-turn counters (how many remote draft calls, full reviews and
pre-filter calls were issued). -/
structure TurnStats where
  remoteCalls : Nat
  reviewCalls : Nat
  prefilterChecks : Nat
  deriving DecidableEq, Repr

/-- State of the attempt loop of `generate_response`: the working copy, the
durable conversation, the remaining oracle streams, the `is_first_pass` and
`proceed_with_wise_counsel` locals, and the counters. -/
structure LoopSt where
  temp : Store
  durable : Store
  responses : List Resp
  verdicts : List ReviewCall
  prefilters : List PrefilterOutcome
  isFirstPass : Bool
  proceed : Bool
  stats : TurnStats

/-- Result of the inner `while attempt < max_attempts` loop. -/
inductive InnerOut where
  | truncated (st : LoopSt) (truncMsg : String)
  | approvedResp (r : Resp) (st : LoopSt)
  | exhausted (st : LoopSt)
  | oracleDry (st : LoopSt)

/-- One execution of the inner attempt loop of `generate_response`, with
`fuel = max_attempts - attempt` (the loop variable `attempt` is incremented
exactly when a full review is conducted).  The `wire` flag selects whether
the pre-filter consultation is wired in: in the source the call
(src/codai.py lines 1049–1054) is COMMENTED OUT, so `wire = false` embeds the
source exactly (`proceed` keeps its initial value `false` forever), while
`wire = true` restores the commented call as §4.3/§4.4 of the spec describe. -/
def attemptLoop (wire : Bool) : Nat → LoopSt → InnerOut
  | 0, st => InnerOut.exhausted st
  | fuel + 1, st =>
    match st.responses with
    | [] => InnerOut.oracleDry st
    | r :: rs =>
      let st1 : LoopSt :=
        { st with
          responses := rs
          stats := { st.stats with remoteCalls := st.stats.remoteCalls + 1 } }
      if r.stopReason == StopReason.max_tokens then
        let truncMsg := (handle_max_tokens_exceeded r).1
        let durableT := add_message st1.durable Role.assistant
          (Content.blocks [Item.obj { btype := BType.text, text := truncMsg }])
        InnerOut.truncated { st1 with durable := durableT } truncMsg
      else
        if st1.isFirstPass && lastUserIsToolResult st1.temp.messages then
          InnerOut.approvedResp r st1
        else
          let st2 : LoopSt :=
            if st1.isFirstPass then
              if wire then
                match st1.prefilters with
                | [] => { st1 with isFirstPass := false }
                | o :: os =>
                    { st1 with
                      prefilters := os
                      proceed := assess_proceed o
                      isFirstPass := false
                      stats := { st1.stats with
                        prefilterChecks := st1.stats.prefilterChecks + 1 } }
              else { st1 with isFirstPass := false }
            else st1
          if st2.proceed then
            match st2.verdicts with
            | [] => InnerOut.oracleDry st2
            | vc :: vcs =>
              let reviewResult := review_response vc
              let st3 : LoopSt :=
                { st2 with
                  verdicts := vcs
                  stats := { st2.stats with reviewCalls := st2.stats.reviewCalls + 1 } }
              if reviewResult.approved then
                InnerOut.approvedResp r st3
              else
                attemptLoop wire fuel
                  { st3 with temp := appendFeedback st3.temp reviewResult.feedback }
          else
            InnerOut.approvedResp r st2

/-- Final outcome of one call of `generate_response` for one user turn. -/
inductive Outcome where
  | finalText (s : String)
  | truncated (s : String)
  | failedAttempts
  | emptyResponse
  | raisedAPIError (e : String)
  | oracleDry
  deriving DecidableEq, Repr

/-- Result of a turn: the durable conversation, the outcome, the counters. -/
structure TurnResult where
  store : Store
  outcome : Outcome
  stats : TurnStats
  deriving DecidableEq, Repr

/-- The outer `while True` loop of `generate_response`.  Each iteration
re-initialises `attempt`, `is_first_pass`, `proceed_with_wise_counsel` and
deep-copies the durable conversation into the working copy; an approved
response is committed through `process_claude_response` (which appends the
assistant message to the DURABLE conversation), preceded by
`update_last_api_call_timestamp`; tool results are folded into the durable
conversation and the loop continues; an exception from the folding reaches
the `except Exception` handler, which appends an error message and re-raises
`APIError`.  `ofuel` bounds the outer iterations (each consumes at least one
remote response). -/
def turnLoop (wire : Bool) (toolExec : String → List (String × String) → ToolPayload)
    (fs : Fs) (now : Nat) :
    Nat → Store → List Resp → List ReviewCall → List PrefilterOutcome → TurnStats → TurnResult
  | 0, store, _, _, _, stats => ⟨store, Outcome.oracleDry, stats⟩
  | ofuel + 1, store, resps, verds, prefs, stats =>
    let st0 : LoopSt :=
      { temp := store, durable := store, responses := resps, verdicts := verds,
        prefilters := prefs, isFirstPass := true, proceed := false, stats := stats }
    match attemptLoop wire 5 st0 with
    | InnerOut.truncated st truncMsg => ⟨st.durable, Outcome.truncated truncMsg, st.stats⟩
    | InnerOut.oracleDry st => ⟨st.durable, Outcome.oracleDry, st.stats⟩
    | InnerOut.exhausted st => ⟨st.durable, Outcome.failedAttempts, st.stats⟩
    | InnerOut.approvedResp r st =>
      let durable1 : Store :=
        { st.durable with filesContext :=
            update_last_api_call_timestamp st.durable.filesContext now }
      match process_claude_response toolExec r durable1 with
      | (durable2, PCROutcome.toolResults trs) =>
        match handle_tool_results fs now durable2 trs with
        | Except.ok durable3 =>
            turnLoop wire toolExec fs now ofuel durable3 st.responses st.verdicts
              st.prefilters st.stats
        | Except.error e =>
            ⟨add_message durable2 Role.assistant
              (Content.blocks [Item.obj
                { btype := BType.text, text := "Failed to generate response: " ++ e }]),
             Outcome.raisedAPIError e, st.stats⟩
      | (durable2, PCROutcome.finalText s) =>
          if s ≠ "" then ⟨durable2, Outcome.finalText s, st.stats⟩
          else ⟨durable2, Outcome.emptyResponse, st.stats⟩
      | (durable2, PCROutcome.empty) => ⟨durable2, Outcome.emptyResponse, st.stats⟩

/-- Embeds `generate_response` EXACTLY as the source stands: the pre-filter
invocation is commented out (src/codai.py lines 1049–1054), so the `wire`
flag is `false` and `proceed_with_wise_counsel` keeps its initial value
`False`: neither the pre-filter nor the full reviewer is ever called. -/
def generate_response (toolExec : String → List (String × String) → ToolPayload)
    (fs : Fs) (now : Nat) (store : Store) (resps : List Resp) (verds : List ReviewCall)
    (prefs : List PrefilterOutcome) : TurnResult :=
  turnLoop false toolExec fs now (resps.length + 1) store resps verds prefs ⟨0, 0, 0⟩

/-- Modelled from the spec: the pre-filter wiring of `generate_response` is
missing from the source (the call at src/codai.py lines 1049–1054 is
commented out), so this variant restores it per spec §4.3 step 2d and §4.4 —
on the first attempt only, call the pre-filter and let its thresholds decide
whether full review is needed.  Everything else is the source embedding. -/
def generate_response_with_prefilter
    (toolExec : String → List (String × String) → ToolPayload)
    (fs : Fs) (now : Nat) (store : Store) (resps : List Resp) (verds : List ReviewCall)
    (prefs : List PrefilterOutcome) : TurnResult :=
  turnLoop true toolExec fs now (resps.length + 1) store resps verds prefs ⟨0, 0, 0⟩

/-! ## Theorems about the Context Cache partition (claims C4, C5) -/

/-- Helper: with unique paths, `find?` on an entry's own path returns that
entry. -/
theorem find?_path_self {l : List FileEntry} (hnd : (l.map FileEntry.path).Nodup)
    {e : FileEntry} (he : e ∈ l) :
    l.find? (fun x => x.path == e.path) = some e := by
  induction l with
  | nil => cases he
  | cons a t ih =>
    rw [List.map_cons, List.nodup_cons] at hnd
    rcases List.mem_cons.mp he with rfl | het
    · exact List.find?_cons_of_pos _ (by simp)
    · have hne' : (a.path == e.path) = false := by
        simp only [beq_eq_false_iff_ne, ne_eq]
        intro h
        exact hnd.1 (h ▸ List.mem_map_of_mem FileEntry.path het)
      have step : List.find? (fun x => x.path == e.path) (a :: t)
          = List.find? (fun x => x.path == e.path) t :=
        List.find?_cons_of_neg t (by simp [hne'])
      rw [step]
      exact ih hnd.2 het

/-- Helper: with unique paths, the sort-key lookup `mtimeOf` of an entry's
path is its own modification time. -/
theorem mtimeOf_mem {ctx : FilesContext} (hnd : (ctx.entries.map FileEntry.path).Nodup)
    {e : FileEntry} (he : e ∈ ctx.entries) : mtimeOf ctx e.path = e.mtime := by
  unfold mtimeOf
  rw [find?_path_self hnd he]

/-- Helper: every entry of the first component of `splitEntries` is a tracked
entry that is not classified new/modified. -/
theorem splitEntries_fst_mem {ctx : FilesContext} {e : FileEntry}
    (h : e ∈ (splitEntries ctx).1) :
    e ∈ ctx.entries ∧ isNewModified ctx e = false := by
  unfold splitEntries at h
  have h' := (List.mem_insertionSort mtimeLe).mp h
  have := List.mem_filter.mp h'
  refine ⟨this.1, ?_⟩
  simpa using this.2

/-- Helper: every entry of the second component of `splitEntries` is a tracked
entry classified new/modified. -/
theorem splitEntries_snd_mem {ctx : FilesContext} {e : FileEntry}
    (h : e ∈ (splitEntries ctx).2) :
    e ∈ ctx.entries ∧ isNewModified ctx e = true := by
  unfold splitEntries at h
  have h' := (List.mem_insertionSort mtimeLe).mp h
  have := List.mem_filter.mp h'
  exact ⟨this.1, this.2⟩

/-- C4: for every Context Cache state and every last-remote-call timestamp
(including none), `split_files_for_api_context` returns two lists whose union
(as a multiset) equals the full set of tracked file artifacts, whose
intersection is empty, and each of which is sorted by ascending
last-modification time. -/
theorem C4_partition_for_request (ctx : FilesContext)
    (hnd : (ctx.entries.map FileEntry.path).Nodup) :
    ((split_files_for_api_context ctx).1 ++ (split_files_for_api_context ctx).2).Perm
        (ctx.entries.map (fun e => (e.path, e.content)))
    ∧ (∀ x ∈ (split_files_for_api_context ctx).1, x ∉ (split_files_for_api_context ctx).2)
    ∧ List.Sorted (fun a b => mtimeOf ctx a.1 ≤ mtimeOf ctx b.1)
        (split_files_for_api_context ctx).1
    ∧ List.Sorted (fun a b => mtimeOf ctx a.1 ≤ mtimeOf ctx b.1)
        (split_files_for_api_context ctx).2 := by
  haveI htot : IsTotal FileEntry mtimeLe := ⟨fun a b => Nat.le_total a.mtime b.mtime⟩
  haveI htrans : IsTrans FileEntry mtimeLe := ⟨fun a b c => Nat.le_trans⟩
  have hperm1 : (splitEntries ctx).1.Perm
      (ctx.entries.filter (fun e => !isNewModified ctx e)) := List.perm_insertionSort _ _
  have hperm2 : (splitEntries ctx).2.Perm
      (ctx.entries.filter (fun e => isNewModified ctx e)) := List.perm_insertionSort _ _
  have hunion : ((splitEntries ctx).1 ++ (splitEntries ctx).2).Perm ctx.entries := by
    refine ((hperm1.append hperm2).trans ?_)
    exact List.perm_append_comm.trans (List.filter_append_perm _ _)
  refine ⟨?_, ?_, ?_, ?_⟩
  · have := hunion.map (fun e => (e.path, e.content))
    simpa [split_files_for_api_context] using this
  · intro x hx1 hx2
    unfold split_files_for_api_context at hx1 hx2
    obtain ⟨e1, he1, hpe1⟩ := List.mem_map.mp hx1
    obtain ⟨e2, he2, hpe2⟩ := List.mem_map.mp hx2
    have h1 := splitEntries_fst_mem he1
    have h2 := splitEntries_snd_mem he2
    have hpath : e1.path = e2.path := by
      have := hpe1.trans hpe2.symm
      exact congrArg Prod.fst this
    have : e1 = e2 := List.inj_on_of_nodup_map hnd h1.1 h2.1 hpath
    rw [this] at h1
    rw [h1.2] at h2
    exact Bool.false_ne_true h2.2
  · have hs : List.Sorted mtimeLe (splitEntries ctx).1 := List.sorted_insertionSort _ _
    unfold split_files_for_api_context
    rw [List.Sorted, List.pairwise_map]
    refine hs.imp_of_mem ?_
    intro a b ha hb hab
    have hae := (splitEntries_fst_mem ha).1
    have hbe := (splitEntries_fst_mem hb).1
    simpa [mtimeOf_mem hnd hae, mtimeOf_mem hnd hbe] using hab
  · have hs : List.Sorted mtimeLe (splitEntries ctx).2 := List.sorted_insertionSort _ _
    unfold split_files_for_api_context
    rw [List.Sorted, List.pairwise_map]
    refine hs.imp_of_mem ?_
    intro a b ha hb hab
    have hae := (splitEntries_snd_mem ha).1
    have hbe := (splitEntries_snd_mem hb).1
    simpa [mtimeOf_mem hnd hae, mtimeOf_mem hnd hbe] using hab

/-- Concrete Context Cache used to witness C4. -/
def c4Ctx : FilesContext :=
  { entries := [⟨"a.py", "print(1)", 3, "user"⟩, ⟨"b.py", "print(2)", 1, "read_file"⟩],
    lastApiCall := some 2 }

/-- Witness for C4 at a concrete cache state with a recorded last call. -/
theorem C4_partition_for_request_witness :
    (c4Ctx.entries.map FileEntry.path).Nodup ∧
    (((split_files_for_api_context c4Ctx).1 ++ (split_files_for_api_context c4Ctx).2).Perm
        (c4Ctx.entries.map (fun e => (e.path, e.content)))
    ∧ (∀ x ∈ (split_files_for_api_context c4Ctx).1, x ∉ (split_files_for_api_context c4Ctx).2)
    ∧ List.Sorted (fun a b => mtimeOf c4Ctx a.1 ≤ mtimeOf c4Ctx b.1)
        (split_files_for_api_context c4Ctx).1
    ∧ List.Sorted (fun a b => mtimeOf c4Ctx a.1 ≤ mtimeOf c4Ctx b.1)
        (split_files_for_api_context c4Ctx).2) :=
  ⟨by decide, C4_partition_for_request c4Ctx (by decide)⟩

/-- Concrete Context Cache with no recorded remote call, used for C5. -/
def c5Ctx : FilesContext :=
  { entries := [⟨"a.txt", "x", 5, "user"⟩], lastApiCall := none }

/-- C5 counterexample: with no prior remote call recorded, the tracked
artifact lands in the FIRST list (existing/unchanged), not in the second
(new/modified) as the claim states — the guard
`if self.last_api_call and ...` is falsy when `last_api_call` is `None`. -/
theorem C5_counterexample :
    ("a.txt", "x") ∈ (split_files_for_api_context c5Ctx).1 ∧
    ("a.txt", "x") ∉ (split_files_for_api_context c5Ctx).2 := by
  decide

/-- C5 amended: when no remote call has been recorded, every tracked artifact
is placed in the "existing/unchanged" list and the "new or modified" list is
empty. -/
theorem C5_amended_no_last_call (ctx : FilesContext) (h : ctx.lastApiCall = none) :
    (split_files_for_api_context ctx).2 = []
    ∧ (split_files_for_api_context ctx).1.Perm
        (ctx.entries.map (fun e => (e.path, e.content))) := by
  have hfalse : ∀ e ∈ ctx.entries, isNewModified ctx e = false := by
    intro e _
    unfold isNewModified
    rw [h]
  constructor
  · unfold split_files_for_api_context splitEntries
    have : ctx.entries.filter (fun e => isNewModified ctx e) = [] := by
      rw [List.filter_eq_nil_iff]
      intro a ha
      simp [hfalse a ha]
    rw [this]
    rfl
  · unfold split_files_for_api_context splitEntries
    have : ctx.entries.filter (fun e => !isNewModified ctx e) = ctx.entries := by
      rw [List.filter_eq_self]
      intro a ha
      simp [hfalse a ha]
    rw [this]
    exact (List.perm_insertionSort _ _).map _

/-- Witness for the amended C5 at the concrete cache `c5Ctx`. -/
theorem C5_amended_no_last_call_witness :
    c5Ctx.lastApiCall = none ∧
    ((split_files_for_api_context c5Ctx).2 = []
    ∧ (split_files_for_api_context c5Ctx).1.Perm
        (c5Ctx.entries.map (fun e => (e.path, e.content)))) :=
  ⟨rfl, C5_amended_no_last_call c5Ctx rfl⟩

/-! ## Theorems about the Conversation Store rendering (claim C6) -/


/-- Helper: the annotation step never changes a message role. -/
theorem annotate_role (m : Msg) : (annotateCacheControl m).role = m.role := by
  unfold annotateCacheControl
  rcases m with ⟨r, c⟩
  rcases c with s | items
  · rfl
  · rcases items with _ | ⟨i, rest⟩
    · rfl
    · rcases i with b | s <;> rfl

/-- Helper: annotating any message whose content is not an empty block list
produces an annotated message. -/
theorem annotate_isAnnotated {m : Msg} (h : m.content ≠ Content.blocks []) :
    isAnnotated (annotateCacheControl m) = true := by
  unfold annotateCacheControl isAnnotated
  rcases m with ⟨r, c⟩
  rcases c with s | items
  · rfl
  · rcases items with _ | ⟨i, rest⟩
    · exact absurd rfl h
    · rcases i with b | s <;> rfl

/-- Helper: `list.index` semantics — the index of the first occurrence. -/
theorem indexOf_append_first {α : Type} [DecidableEq α] {s : List α} {a : α}
    (t : List α) (h : a ∉ s) : (s ++ a :: t).indexOf a = s.length := by
  induction s with
  | nil => exact List.indexOf_cons_self a t
  | cons b s ih =>
    have hb : b ≠ a := fun hba => h (hba ▸ List.mem_cons_self b s)
    have hs : a ∉ s := fun hs => h (List.mem_cons_of_mem b hs)
    simp only [List.cons_append, List.indexOf_cons_ne _ hb, ih hs, List.length_cons]

/-- Helper: in-place update at the index right after a prefix. -/
theorem modify_append {α : Type} (f : α → α) (s : List α) (a : α) (t : List α) :
    List.modify f s.length (s ++ a :: t) = s ++ f a :: t := by
  induction s with
  | nil => simp [List.modify]
  | cons b s ih =>
    simp only [List.length_cons, List.cons_append]
    rw [show List.modify f (s.length + 1) (b :: (s ++ a :: t))
        = b :: List.modify f s.length (s ++ a :: t) by simp [List.modify], ih]

/-- Helper: a decomposition of `l.filter p` lifts to a decomposition of `l`. -/
theorem filter_split {α : Type} (p : α → Bool) {l F R : List α} {m : α}
    (h : l.filter p = F ++ m :: R) :
    ∃ s t, l = s ++ m :: t ∧ s.filter p = F ∧ t.filter p = R := by
  induction l generalizing F with
  | nil => simp at h
  | cons a l ih =>
    by_cases hp : p a
    · rw [List.filter_cons_of_pos hp] at h
      cases F with
      | nil =>
        rw [List.nil_append] at h
        have ham : a = m := (List.cons_eq_cons.mp h).1
        have hfR : l.filter p = R := (List.cons_eq_cons.mp h).2
        exact ⟨[], l, by rw [ham, List.nil_append], rfl, hfR⟩
      | cons f F' =>
        have haf : a = f := (List.cons_eq_cons.mp h).1
        have h' : l.filter p = F' ++ m :: R := (List.cons_eq_cons.mp h).2
        obtain ⟨s, t, rfl, hs, ht⟩ := ih h'
        exact ⟨a :: s, t, rfl, by rw [List.filter_cons_of_pos hp, hs, haf], ht⟩
    · rw [List.filter_cons_of_neg hp] at h
      obtain ⟨s, t, rfl, hs, ht⟩ := ih h
      exact ⟨a :: s, t, rfl, by rw [List.filter_cons_of_neg hp, hs], ht⟩

/-- Number of user-role messages in a history. -/
def userCount (msgs : List Msg) : Nat :=
  (msgs.filter (fun m => m.role == Role.user)).length

/-- Helper: the annotation step keeps the user role. -/
theorem annotate_keeps_user {m : Msg} (h : (m.role == Role.user) = true) :
    ((annotateCacheControl m).role == Role.user) = true := by
  rw [annotate_role]
  exact h

/-- C6 amended: provided no two user-role messages of the history are equal
(the Python code locates the messages to annotate with `list.index`, which
finds the first EQUAL message), no input message already carries the
annotation, and no user message has an empty block list as content, then
after `get_messages_for_api` exactly `min 2 (number of user messages)` user
messages carry the cache-anchor annotation and they are exactly the most
recent user messages; moreover a scalar text content is normalized into a
one-element block sequence when annotated. -/
theorem C6_amended (msgs : List Msg)
    (hnd : (msgs.filter (fun m => m.role == Role.user)).Nodup)
    (hclean : ∀ m ∈ msgs, isAnnotated m = false)
    (hwf : ∀ m ∈ msgs, m.role = Role.user → m.content ≠ Content.blocks []) :
    ((get_messages_for_api msgs).filter (fun m => m.role == Role.user)).map isAnnotated
      = List.replicate (userCount msgs - min 2 (userCount msgs)) false
        ++ List.replicate (min 2 (userCount msgs)) true
    ∧ (∀ s : String, annotateCacheControl ⟨Role.user, Content.scalar s⟩
        = ⟨Role.user, Content.blocks
            [Item.obj { btype := BType.text, text := s, cacheControl := true }]⟩) := by
  refine ⟨?_, fun s => rfl⟩
  have husmem : ∀ x ∈ msgs.filter (fun m => m.role == Role.user), x ∈ msgs :=
    fun x hx => (List.mem_filter.mp hx).1
  by_cases hk2 : 2 ≤ (msgs.filter (fun m => m.role == Role.user)).length
  · -- at least two user messages
    obtain ⟨m1, m2, hdrop⟩ : ∃ m1 m2,
        (msgs.filter (fun m => m.role == Role.user)).drop
          ((msgs.filter (fun m => m.role == Role.user)).length - 2) = [m1, m2] := by
      apply List.length_eq_two.mp
      rw [List.length_drop]
      omega
    have husplit : msgs.filter (fun m => m.role == Role.user)
        = (msgs.filter (fun m => m.role == Role.user)).take
            ((msgs.filter (fun m => m.role == Role.user)).length - 2) ++ [m1, m2] := by
      rw [← hdrop, List.take_append_drop]
    have hndsplit := husplit ▸ hnd
    rw [List.nodup_append] at hndsplit
    have hm1f : m1 ∉ (msgs.filter (fun m => m.role == Role.user)).take
        ((msgs.filter (fun m => m.role == Role.user)).length - 2) := by
      intro h
      exact hndsplit.2.2 h (List.mem_cons_self m1 [m2])
    have hm2f : m2 ∉ (msgs.filter (fun m => m.role == Role.user)).take
        ((msgs.filter (fun m => m.role == Role.user)).length - 2) := by
      intro h
      exact hndsplit.2.2 h (by simp)
    have hm12 : m1 ≠ m2 := by
      have h12 := hndsplit.2.1
      simpa using h12
    have hsplit1 : msgs.filter (fun m => m.role == Role.user)
        = (msgs.filter (fun m => m.role == Role.user)).take
            ((msgs.filter (fun m => m.role == Role.user)).length - 2) ++ m1 :: [m2] := by
      conv_lhs => rw [husplit]
    obtain ⟨s1, t1, hmsgs1, hs1, ht1⟩ := filter_split (fun (m : Msg) => m.role == Role.user) hsplit1
    have hsplit2 : t1.filter (fun m => m.role == Role.user) = [] ++ m2 :: [] := by
      simp [ht1]
    obtain ⟨s2, t2, hmsgs2, hs2, ht2⟩ := filter_split (fun (m : Msg) => m.role == Role.user) hsplit2
    have hmsgs : msgs = s1 ++ m1 :: (s2 ++ m2 :: t2) := by rw [hmsgs1, hmsgs2]
    have hm1us : m1 ∈ msgs.filter (fun m => m.role == Role.user) := by
      rw [husplit]; simp
    have hm2us : m2 ∈ msgs.filter (fun m => m.role == Role.user) := by
      rw [husplit]; simp
    have hpm1 : (m1.role == Role.user) = true := (List.mem_filter.mp hm1us).2
    have hpm2 : (m2.role == Role.user) = true := (List.mem_filter.mp hm2us).2
    have hm1s1 : m1 ∉ s1 := by
      intro h
      exact hm1f (hs1 ▸ List.mem_filter.mpr ⟨h, hpm1⟩)
    have hm2s1 : m2 ∉ s1 := by
      intro h
      exact hm2f (hs1 ▸ List.mem_filter.mpr ⟨h, hpm2⟩)
    have hm2s2 : m2 ∉ s2 := by
      intro h
      have hmem : m2 ∈ s2.filter (fun m => m.role == Role.user) :=
        List.mem_filter.mpr ⟨h, hpm2⟩
      rw [hs2] at hmem
      cases hmem
    have hm2pre : m2 ∉ s1 ++ m1 :: s2 := by
      intro h
      rcases List.mem_append.mp h with h | h
      · exact hm2s1 h
      · rcases List.mem_cons.mp h with h | h
        · exact hm12 h.symm
        · exact hm2s2 h
    have hp1 : msgs.indexOf m1 = s1.length := by
      rw [hmsgs]
      exact indexOf_append_first _ hm1s1
    have hp2 : msgs.indexOf m2 = (s1 ++ m1 :: s2).length := by
      rw [hmsgs, show s1 ++ m1 :: (s2 ++ m2 :: t2) = (s1 ++ m1 :: s2) ++ m2 :: t2 by simp]
      exact indexOf_append_first _ hm2pre
    have hgm : get_messages_for_api msgs
        = List.modify annotateCacheControl (msgs.indexOf m2)
            (List.modify annotateCacheControl (msgs.indexOf m1) msgs) := by
      simp only [get_messages_for_api]
      rw [hdrop]
      simp only [List.map_cons, List.map_nil, List.foldl_cons, List.foldl_nil]
    have hres : get_messages_for_api msgs
        = s1 ++ annotateCacheControl m1 :: (s2 ++ annotateCacheControl m2 :: t2) := by
      rw [hgm, hp1, hp2, hmsgs, modify_append]
      rw [show s1 ++ annotateCacheControl m1 :: (s2 ++ m2 :: t2)
          = (s1 ++ annotateCacheControl m1 :: s2) ++ m2 :: t2 by simp]
      rw [show (s1 ++ m1 :: s2).length = (s1 ++ annotateCacheControl m1 :: s2).length by
        simp]
      rw [modify_append]
      simp
    have hfR : (get_messages_for_api msgs).filter (fun m => m.role == Role.user)
        = (msgs.filter (fun m => m.role == Role.user)).take
            ((msgs.filter (fun m => m.role == Role.user)).length - 2)
          ++ [annotateCacheControl m1, annotateCacheControl m2] := by
      rw [hres]
      have h1 := annotate_keeps_user hpm1
      have h2 := annotate_keeps_user hpm2
      simp only [List.filter_append, List.filter_cons, h1, if_true]
      simp only [h2, if_true]
      rw [hs1, hs2, ht2]
      simp
    rw [hfR, List.map_append]
    have hfront : ((msgs.filter (fun m => m.role == Role.user)).take
        ((msgs.filter (fun m => m.role == Role.user)).length - 2)).map isAnnotated
        = List.replicate ((msgs.filter (fun m => m.role == Role.user)).length - 2) false := by
      rw [List.eq_replicate_iff]
      constructor
      · rw [List.length_map, List.length_take]
        omega
      · intro b hb
        obtain ⟨x, hx, rfl⟩ := List.mem_map.mp hb
        exact hclean x (husmem x (List.mem_of_mem_take hx))
    have hrole1 : m1.role = Role.user := by
      have := hpm1
      simpa [beq_iff_eq] using this
    have hrole2 : m2.role = Role.user := by
      have := hpm2
      simpa [beq_iff_eq] using this
    have ha1 : isAnnotated (annotateCacheControl m1) = true :=
      annotate_isAnnotated (hwf m1 (husmem m1 hm1us) hrole1)
    have ha2 : isAnnotated (annotateCacheControl m2) = true :=
      annotate_isAnnotated (hwf m2 (husmem m2 hm2us) hrole2)
    rw [hfront]
    have hmin : min 2 (userCount msgs) = 2 := by
      unfold userCount
      omega
    rw [hmin]
    unfold userCount
    simp [ha1, ha2, List.replicate]
  · -- fewer than two user messages
    push_neg at hk2
    rcases hlen : (msgs.filter (fun m => m.role == Role.user)).length with _ | k1
    · -- no user messages
      have hus0 : msgs.filter (fun m => m.role == Role.user) = [] :=
        List.length_eq_zero.mp hlen
      have hgm : get_messages_for_api msgs = msgs := by
        simp only [get_messages_for_api]
        rw [hus0]
        rfl
      rw [hgm]
      unfold userCount
      rw [hus0]
      simp [hus0]
    rcases k1 with _ | k2
    · -- exactly one user message
      obtain ⟨m1, hus1⟩ := List.length_eq_one.mp hlen
      have hsplit1 : msgs.filter (fun m => m.role == Role.user) = [] ++ m1 :: [] := by
        simp [hus1]
      obtain ⟨s1, t1, hmsgs1, hs1, ht1⟩ := filter_split (fun (m : Msg) => m.role == Role.user) hsplit1
      have hm1us : m1 ∈ msgs.filter (fun m => m.role == Role.user) := by
        rw [hus1]; simp
      have hpm1 : (m1.role == Role.user) = true := (List.mem_filter.mp hm1us).2
      have hm1s1 : m1 ∉ s1 := by
        intro hmem
        have : m1 ∈ s1.filter (fun m => m.role == Role.user) :=
          List.mem_filter.mpr ⟨hmem, hpm1⟩
        rw [hs1] at this
        cases this
      have hp1 : msgs.indexOf m1 = s1.length := by
        rw [hmsgs1]
        exact indexOf_append_first _ hm1s1
      have hgm : get_messages_for_api msgs
          = List.modify annotateCacheControl (msgs.indexOf m1) msgs := by
        simp only [get_messages_for_api]
        rw [hus1]
        simp only [List.length_cons, List.length_nil, List.drop, List.map_cons,
          List.map_nil, List.foldl_cons, List.foldl_nil]
      have hres : get_messages_for_api msgs = s1 ++ annotateCacheControl m1 :: t1 := by
        rw [hgm, hp1, hmsgs1, modify_append]
      have hrole1 : m1.role = Role.user := by simpa [beq_iff_eq] using hpm1
      have ha1 : isAnnotated (annotateCacheControl m1) = true :=
        annotate_isAnnotated (hwf m1 (husmem m1 hm1us) hrole1)
      rw [hres]
      have h1 := annotate_keeps_user hpm1
      simp only [List.filter_append, List.filter_cons, h1, if_true]
      rw [hs1, ht1]
      unfold userCount
      rw [hlen]
      simp [ha1]
    · -- length at least two contradicts the case assumption
      rw [hlen] at hk2
      omega


/-- Two EQUAL user messages: the duplicate-history counterexample to C6. -/
def c6Msgs : List Msg :=
  [⟨Role.user, Content.scalar "hi"⟩, ⟨Role.user, Content.scalar "hi"⟩]

/-- C6 counterexample: with two identical user messages, `list.index` finds
the first occurrence twice, so only ONE message (the older one) ends up
annotated instead of the claimed `min 2 2 = 2` most recent ones. -/
theorem C6_counterexample :
    ¬ (((get_messages_for_api c6Msgs).filter (fun m => m.role == Role.user)).map isAnnotated
        = List.replicate (userCount c6Msgs - min 2 (userCount c6Msgs)) false
          ++ List.replicate (min 2 (userCount c6Msgs)) true) := by
  decide

/-- Concrete three-message history used to witness the amended C6. -/
def c6WitnessMsgs : List Msg :=
  [⟨Role.user, Content.scalar "hello"⟩,
   ⟨Role.assistant, Content.blocks [Item.obj { btype := BType.text, text := "hi there" }]⟩,
   ⟨Role.user, Content.scalar "next question"⟩]

/-- Witness for the amended C6 at a concrete history. -/
theorem C6_amended_witness :
    ((c6WitnessMsgs.filter (fun m => m.role == Role.user)).Nodup
     ∧ (∀ m ∈ c6WitnessMsgs, isAnnotated m = false)
     ∧ (∀ m ∈ c6WitnessMsgs, m.role = Role.user → m.content ≠ Content.blocks []))
    ∧ ((get_messages_for_api c6WitnessMsgs).filter (fun m => m.role == Role.user)).map isAnnotated
        = List.replicate (userCount c6WitnessMsgs - min 2 (userCount c6WitnessMsgs)) false
          ++ List.replicate (min 2 (userCount c6WitnessMsgs)) true
    ∧ annotateCacheControl ⟨Role.user, Content.scalar "hello"⟩
        = ⟨Role.user, Content.blocks
            [Item.obj { btype := BType.text, text := "hello", cacheControl := true }]⟩ :=
  ⟨⟨by decide, by decide, by decide⟩,
   (C6_amended c6WitnessMsgs (by decide) (by decide) (by decide)).1,
   (C6_amended c6WitnessMsgs (by decide) (by decide) (by decide)).2 "hello"⟩

/-! ## Theorems about the Quality Reviewer and the Tool Bridge (claims C8, C9, C10) -/

/-- C9: whenever the approval-status tag cannot be parsed from the critic
text, and whenever the review call raises, `review_response` returns a result
with `approved = false`; being a total function of the call outcome, it never
propagates an exception.  (The accompanying `logger.warning` calls are
side-effect-only and not modelled.) -/
theorem C9_review_failures_not_approved :
    (∀ t : String, extractApprovalStatus t = none →
        (review_response (ReviewCall.ok t)).approved = false)
    ∧ (∀ e : String, review_response (ReviewCall.exn e)
        = { approved := false, feedback := "An error occurred during the review process.",
            fullReview := e, totalScore := 0 }) := by
  constructor
  · intro t h
    simp [review_response, h]
  · intro e
    rfl

/-- Witness for C9 at a tagless critic text and at a raised exception. -/
theorem C9_witness :
    extractApprovalStatus "The answer is fine." = none
    ∧ (review_response (ReviewCall.ok "The answer is fine.")).approved = false
    ∧ review_response (ReviewCall.exn "connection reset")
      = { approved := false, feedback := "An error occurred during the review process.",
          fullReview := "connection reset", totalScore := 0 } :=
  ⟨by decide, C9_review_failures_not_approved.1 "The answer is fine." (by decide),
   C9_review_failures_not_approved.2 "connection reset"⟩

/-- Helper: dict lookup of a present key under key uniqueness. -/
theorem lookup_eq_of_mem_nodup {β : Type} {fields : List (String × β)} {k : String} {v : β}
    (hnd : (fields.map Prod.fst).Nodup) (hmem : (k, v) ∈ fields) :
    List.lookup k fields = some v := by
  induction fields with
  | nil => cases hmem
  | cons a t ih =>
    obtain ⟨k1, v1⟩ := a
    rw [List.map_cons, List.nodup_cons] at hnd
    rcases List.mem_cons.mp hmem with heq | hmem2
    · cases heq
      simp [List.lookup]
    · have hka : (k == k1) = false := by
        simp only [beq_eq_false_iff_ne, ne_eq]
        intro h
        have hk : k ∈ t.map Prod.fst := List.mem_map_of_mem Prod.fst hmem2
        exact hnd.1 (h ▸ hk)
      simp [List.lookup, hka]
      exact ih hnd.2 hmem2


/-- C8: for every non-error tool payload, if a key literally named
`file_path` is present then the path is resolved from its value regardless of
other keys containing "file"; if `file_path` is absent, the first key
containing "file" (case-insensitively, in dict insertion order) is used. -/
theorem C8_file_path_precedence :
    (∀ (fields : List (String × String)) (v : String),
       (fields.map Prod.fst).Nodup → ("file_path", v) ∈ fields →
       resolve_file_path fields = some v)
    ∧ (∀ (fields : List (String × String)) (k v : String),
       (fields.map Prod.fst).Nodup →
       "file_path" ∉ fields.map Prod.fst →
       ((fields.map Prod.fst).filter keyHasFile).head? = some k →
       (k, v) ∈ fields →
       resolve_file_path fields = some v) := by
  constructor
  · intro fields v hnd hmem
    have hkmem : "file_path" ∈ fields.map Prod.fst := List.mem_map_of_mem Prod.fst hmem
    have hkf : keyHasFile "file_path" = true := by decide
    have hfkmem : "file_path" ∈ (fields.map Prod.fst).filter keyHasFile :=
      List.mem_filter.mpr ⟨hkmem, hkf⟩
    have hcont : ((fields.map Prod.fst).filter keyHasFile).contains "file_path" = true := by
      exact List.elem_eq_true_of_mem hfkmem
    unfold resolve_file_path
    rw [if_pos hcont]
    exact lookup_eq_of_mem_nodup hnd hmem
  · intro fields k v hnd hnofp hfirst hmem
    have hcont : ((fields.map Prod.fst).filter keyHasFile).contains "file_path" = false := by
      by_contra hc
      have : "file_path" ∈ (fields.map Prod.fst).filter keyHasFile := by
        have := Bool.not_eq_false _ |>.mp hc
        exact List.mem_of_elem_eq_true this
      exact hnofp (List.mem_filter.mp this).1
    obtain ⟨tail, htail⟩ : ∃ tail,
        (fields.map Prod.fst).filter keyHasFile = k :: tail := by
      cases h : (fields.map Prod.fst).filter keyHasFile with
      | nil => rw [h] at hfirst; cases hfirst
      | cons a tail =>
        rw [h] at hfirst
        simp only [List.head?_cons, Option.some.injEq] at hfirst
        exact ⟨tail, by rw [hfirst]⟩
    unfold resolve_file_path
    rw [if_neg (by rw [hcont]; exact Bool.false_ne_true), htail]
    exact lookup_eq_of_mem_nodup hnd hmem

/-- Payload with both an earlier `"file"`-matching key and `file_path`. -/
def c8Fields1 : List (String × String) := [("fileAlt", "other.txt"), ("file_path", "real.txt")]

/-- Payload without `file_path` but with two `"file"`-matching keys. -/
def c8Fields2 : List (String × String) :=
  [("size", "3"), ("filePathAlt", "alt.txt"), ("profile", "p.txt")]

/-- Witness for C8 at the two concrete payloads. -/
theorem C8_witness :
    ((c8Fields1.map Prod.fst).Nodup ∧ ("file_path", "real.txt") ∈ c8Fields1
      ∧ resolve_file_path c8Fields1 = some "real.txt")
    ∧ ((c8Fields2.map Prod.fst).Nodup ∧ "file_path" ∉ c8Fields2.map Prod.fst
      ∧ ((c8Fields2.map Prod.fst).filter keyHasFile).head? = some "filePathAlt"
      ∧ ("filePathAlt", "alt.txt") ∈ c8Fields2
      ∧ resolve_file_path c8Fields2 = some "alt.txt") :=
  ⟨⟨by decide, by decide,
    C8_file_path_precedence.1 c8Fields1 "real.txt" (by decide) (by decide)⟩,
   ⟨by decide, by decide, by decide, by decide,
    C8_file_path_precedence.2 c8Fields2 "filePathAlt" "alt.txt"
      (by decide) (by decide) (by decide) (by decide)⟩⟩

/-- C10: for a non-error tool result whose file path resolves but whose
payload carries no `file_content` and whose resolved path cannot be read from
disk, `_handle_tool_results` reaches the content-unavailable branch with the
local `relative_path` never assigned, so the fold raises (models Python
`UnboundLocalError`) instead of appending the intended `tool_result`
message. -/
theorem C10_unbound_local_on_missing_content (fs : Fs) (now : Nat) (store : Store)
    (tr : ToolCallResult) (p : String)
    (hne : tr.result.isError = false)
    (hfp : resolve_file_path tr.result.fields = some p)
    (hp : p ≠ "")
    (hnc : List.lookup "file_content" tr.result.fields = none)
    (hread : fs.readFile (if fs.isAbs p then p else fs.abspath p) = none) :
    handle_tool_results fs now store [tr]
      = Except.error
          "UnboundLocalError: local variable relative_path referenced before assignment" := by
  have h1 : handle_one_tool_result fs now (store, none) tr
      = Except.error
          "UnboundLocalError: local variable relative_path referenced before assignment" := by
    unfold handle_one_tool_result
    simp [hne, hfp, hp, hnc, hread]
  unfold handle_tool_results
  simp [List.foldlM, h1]

/-- Filesystem stub where nothing is readable. -/
def c10Fs : Fs :=
  { isAbs := fun _ => true, abspath := id, relpath := id, readFile := fun _ => none }

/-- Empty durable conversation. -/
def c10Store : Store := { messages := [], filesContext := { entries := [], lastApiCall := none } }

/-- A non-error tool result carrying only a `file_path` key. -/
def c10Tr : ToolCallResult :=
  { toolUseId := "toolu_1", toolName := "create_file",
    result := { fields := [("file_path", "foo.txt")], isError := false } }

/-- Witness for C10 at a concrete tool result and filesystem. -/
theorem C10_witness :
    (c10Tr.result.isError = false
     ∧ resolve_file_path c10Tr.result.fields = some "foo.txt"
     ∧ "foo.txt" ≠ ""
     ∧ List.lookup "file_content" c10Tr.result.fields = none
     ∧ c10Fs.readFile (if c10Fs.isAbs "foo.txt" then "foo.txt" else c10Fs.abspath "foo.txt")
         = none)
    ∧ handle_tool_results c10Fs 7 c10Store [c10Tr]
        = Except.error
            "UnboundLocalError: local variable relative_path referenced before assignment" :=
  ⟨⟨rfl, by decide, by decide, by decide, rfl⟩,
   C10_unbound_local_on_missing_content c10Fs 7 c10Store c10Tr "foo.txt"
     rfl (by decide) (by decide) (by decide) rfl⟩

/-! ## Theorems about the Response Orchestrator (claims C1, C2, C3, C7) -/

/-- Helper: one rejected full-review attempt (past the first pass) appends
feedback to the working copy only, consumes one response and one verdict, and
loops. -/
theorem attemptLoop_reject_step (wire : Bool) (fuel : Nat)
    (temp durable : Store) (r : Resp) (rs : List Resp) (vc : ReviewCall)
    (vcs : List ReviewCall) (prefs : List PrefilterOutcome) (stats : TurnStats)
    (hmt : r.stopReason ≠ StopReason.max_tokens)
    (hrej : (review_response vc).approved = false) :
    attemptLoop wire (fuel + 1) ⟨temp, durable, r :: rs, vc :: vcs, prefs, false, true, stats⟩
      = attemptLoop wire fuel
          ⟨appendFeedback temp (review_response vc).feedback, durable, rs, vcs, prefs,
           false, true,
           ⟨stats.remoteCalls + 1, stats.reviewCalls + 1, stats.prefilterChecks⟩⟩ := by
  have hb : (r.stopReason == StopReason.max_tokens) = false := by
    simpa using hmt
  simp [attemptLoop, hb, hrej]

/-- Helper: an approved full-review attempt (past the first pass) exits the
loop with the draft. -/
theorem attemptLoop_accept_step (wire : Bool) (fuel : Nat)
    (temp durable : Store) (r : Resp) (rs : List Resp) (vc : ReviewCall)
    (vcs : List ReviewCall) (prefs : List PrefilterOutcome) (stats : TurnStats)
    (hmt : r.stopReason ≠ StopReason.max_tokens)
    (hacc : (review_response vc).approved = true) :
    attemptLoop wire (fuel + 1) ⟨temp, durable, r :: rs, vc :: vcs, prefs, false, true, stats⟩
      = InnerOut.approvedResp r
          ⟨temp, durable, rs, vcs, prefs, false, true,
           ⟨stats.remoteCalls + 1, stats.reviewCalls + 1, stats.prefilterChecks⟩⟩ := by
  have hb : (r.stopReason == StopReason.max_tokens) = false := by
    simpa using hmt
  simp [attemptLoop, hb, hacc]

/-- Helper: the first attempt with the pre-filter wired (spec 4.3 step 2d):
scores below both thresholds trigger full review; a rejection appends
feedback to the working copy and loops with `proceed` latched on. -/
theorem attemptLoop_first_reject_step (fuel : Nat)
    (temp durable : Store) (r : Resp) (rs : List Resp) (vc : ReviewCall)
    (vcs : List ReviewCall) (u a : Nat) (prefs : List PrefilterOutcome) (stats : TurnStats)
    (hmt : r.stopReason ≠ StopReason.max_tokens)
    (hnt : lastUserIsToolResult temp.messages = false)
    (hu : u < 50) (ha : a < 60)
    (hrej : (review_response vc).approved = false) :
    attemptLoop true (fuel + 1)
        ⟨temp, durable, r :: rs, vc :: vcs, PrefilterOutcome.scores u a :: prefs,
         true, false, stats⟩
      = attemptLoop true fuel
          ⟨appendFeedback temp (review_response vc).feedback, durable, rs, vcs, prefs,
           false, true,
           ⟨stats.remoteCalls + 1, stats.reviewCalls + 1, stats.prefilterChecks + 1⟩⟩ := by
  have hb : (r.stopReason == StopReason.max_tokens) = false := by
    simpa using hmt
  have hdec : proceed_with_wise_counsel_decision u a = true := by
    simp [proceed_with_wise_counsel_decision, hu, ha]
  simp [attemptLoop, hb, hnt, assess_proceed, hdec, hrej]

/-- Helper: the first attempt with the pre-filter wired and an approving
review verdict. -/
theorem attemptLoop_first_accept_step (fuel : Nat)
    (temp durable : Store) (r : Resp) (rs : List Resp) (vc : ReviewCall)
    (vcs : List ReviewCall) (u a : Nat) (prefs : List PrefilterOutcome) (stats : TurnStats)
    (hmt : r.stopReason ≠ StopReason.max_tokens)
    (hnt : lastUserIsToolResult temp.messages = false)
    (hu : u < 50) (ha : a < 60)
    (hacc : (review_response vc).approved = true) :
    attemptLoop true (fuel + 1)
        ⟨temp, durable, r :: rs, vc :: vcs, PrefilterOutcome.scores u a :: prefs,
         true, false, stats⟩
      = InnerOut.approvedResp r
          ⟨temp, durable, rs, vcs, prefs, false, true,
           ⟨stats.remoteCalls + 1, stats.reviewCalls + 1, stats.prefilterChecks + 1⟩⟩ := by
  have hb : (r.stopReason == StopReason.max_tokens) = false := by
    simpa using hmt
  have hdec : proceed_with_wise_counsel_decision u a = true := by
    simp [proceed_with_wise_counsel_decision, hu, ha]
  simp [attemptLoop, hb, hnt, assess_proceed, hdec, hacc]


/-- Helper: with every verdict rejecting, the loop spends exactly its fuel,
one remote call and one review per attempt, never touching the durable
conversation. -/
theorem attemptLoop_all_rejects (wire : Bool) :
    ∀ (fuel : Nat) (temp durable : Store) (resps : List Resp) (verds : List ReviewCall)
      (prefs : List PrefilterOutcome) (stats : TurnStats),
      (∀ r ∈ resps, r.stopReason ≠ StopReason.max_tokens) →
      (∀ vc ∈ verds, (review_response vc).approved = false) →
      fuel ≤ resps.length → fuel ≤ verds.length →
      ∃ (temp2 : Store) (rs2 : List Resp) (vs2 : List ReviewCall),
        attemptLoop wire fuel ⟨temp, durable, resps, verds, prefs, false, true, stats⟩
          = InnerOut.exhausted ⟨temp2, durable, rs2, vs2, prefs, false, true,
              ⟨stats.remoteCalls + fuel, stats.reviewCalls + fuel, stats.prefilterChecks⟩⟩ := by
  intro fuel
  induction fuel with
  | zero =>
    intro temp durable resps verds prefs stats _ _ _ _
    exact ⟨temp, resps, verds, by simp [attemptLoop]⟩
  | succ n ih =>
    intro temp durable resps verds prefs stats hmt hrej hr hv
    match resps, verds with
    | [], _ => simp at hr
    | _, [] => simp at hv
    | r :: rs, vc :: vcs =>
      rw [attemptLoop_reject_step wire n temp durable r rs vc vcs prefs stats
        (hmt r (List.mem_cons_self r rs)) (hrej vc (List.mem_cons_self vc vcs))]
      obtain ⟨temp2, rs2, vs2, heq⟩ := ih (appendFeedback temp (review_response vc).feedback)
        durable rs vcs prefs ⟨stats.remoteCalls + 1, stats.reviewCalls + 1, stats.prefilterChecks⟩
        (fun x hx => hmt x (List.mem_cons_of_mem r hx))
        (fun x hx => hrej x (List.mem_cons_of_mem vc hx))
        (by simp only [List.length_cons] at hr; omega)
        (by simp only [List.length_cons] at hv; omega)
      refine ⟨temp2, rs2, vs2, ?_⟩
      rw [heq]
      have h1 : stats.remoteCalls + 1 + n = stats.remoteCalls + (n + 1) := by omega
      have h2 : stats.reviewCalls + 1 + n = stats.reviewCalls + (n + 1) := by omega
      rw [h1, h2]

/-- Helper: a run of N rejected drafts followed by an accepted one exits with
the accepted draft after N+1 remote calls and N+1 reviews, the durable
conversation untouched. -/
theorem attemptLoop_run_rejects (wire : Bool) :
    ∀ (rejects : List ReviewCall) (drafts : List Resp) (fuel : Nat)
      (temp durable : Store) (final : Resp) (restr : List Resp) (accept : ReviewCall)
      (restv : List ReviewCall) (prefs : List PrefilterOutcome) (stats : TurnStats),
      drafts.length = rejects.length →
      (∀ vc ∈ rejects, (review_response vc).approved = false) →
      (review_response accept).approved = true →
      (∀ r ∈ drafts, r.stopReason ≠ StopReason.max_tokens) →
      final.stopReason ≠ StopReason.max_tokens →
      rejects.length < fuel →
      ∃ temp2 : Store,
        attemptLoop wire fuel
          ⟨temp, durable, drafts ++ final :: restr, rejects ++ accept :: restv, prefs,
           false, true, stats⟩
          = InnerOut.approvedResp final
              ⟨temp2, durable, restr, restv, prefs, false, true,
               ⟨stats.remoteCalls + rejects.length + 1,
                stats.reviewCalls + rejects.length + 1, stats.prefilterChecks⟩⟩ := by
  intro rejects
  induction rejects with
  | nil =>
    intro drafts fuel temp durable final restr accept restv prefs stats hlen _ hacc _ hmtf hfuel
    have hd : drafts = [] := List.length_eq_zero.mp hlen
    subst hd
    match fuel, hfuel with
    | n + 1, _ =>
      refine ⟨temp, ?_⟩
      simpa using attemptLoop_accept_step wire n temp durable final restr accept restv prefs
        stats hmtf hacc
  | cons vc vcs ih =>
    intro drafts fuel temp durable final restr accept restv prefs stats hlen hrej hacc hmtd hmtf hfuel
    match drafts, hlen with
    | d :: ds, hlen =>
      match fuel, hfuel with
      | n + 1, hfuel =>
        rw [List.cons_append, List.cons_append]
        rw [attemptLoop_reject_step wire n temp durable d (ds ++ final :: restr) vc
          (vcs ++ accept :: restv) prefs stats (hmtd d (List.mem_cons_self d ds))
          (hrej vc (List.mem_cons_self vc vcs))]
        obtain ⟨temp2, heq⟩ := ih ds n (appendFeedback temp (review_response vc).feedback)
          durable final restr accept restv prefs
          ⟨stats.remoteCalls + 1, stats.reviewCalls + 1, stats.prefilterChecks⟩
          (by simpa using hlen)
          (fun x hx => hrej x (List.mem_cons_of_mem vc hx))
          hacc
          (fun x hx => hmtd x (List.mem_cons_of_mem d hx))
          hmtf
          (by simpa using Nat.lt_of_succ_lt_succ hfuel)
        refine ⟨temp2, ?_⟩
        rw [heq]
        have h1 : stats.remoteCalls + 1 + vcs.length + 1
            = stats.remoteCalls + (vc :: vcs).length + 1 := by
          simp
          omega
        have h2 : stats.reviewCalls + 1 + vcs.length + 1
            = stats.reviewCalls + (vc :: vcs).length + 1 := by
          simp
          omega
        rw [h1, h2]


/-- Helper: committing an approved terminal text answer — mark the cache
synced, append exactly one assistant message to the durable conversation,
return the stripped text. -/
theorem turnLoop_commit (wire : Bool) (toolExec : String → List (String × String) → ToolPayload)
    (fs : Fs) (now ofuel : Nat) (store temp2 : Store) (final : Resp)
    (resps restr : List Resp) (verds restv : List ReviewCall)
    (prefs0 prefs : List PrefilterOutcome) (rc rv pc : Nat)
    (hterm : toolResultsOf toolExec final = [])
    (hne : finalResponseOf final ≠ "")
    (hnetrim : stripChars (finalResponseOf final) ≠ "")
    (hal : attemptLoop wire 5 ⟨store, store, resps, verds, prefs0, true, false, ⟨0, 0, 0⟩⟩
        = InnerOut.approvedResp final
            ⟨temp2, store, restr, restv, prefs, false, true, ⟨rc, rv, pc⟩⟩) :
    turnLoop wire toolExec fs now (ofuel + 1) store resps verds prefs0 ⟨0, 0, 0⟩
      = ⟨⟨store.messages ++ [⟨Role.assistant, Content.blocks (assistantContentOf final)⟩],
          update_last_api_call_timestamp store.filesContext now⟩,
         Outcome.finalText (stripChars (finalResponseOf final)), ⟨rc, rv, pc⟩⟩ := by
  simp only [turnLoop]
  rw [hal]
  simp [process_claude_response, hterm, hne, hnetrim, add_message,
    update_last_api_call_timestamp]

/-- C3: when every draft is rejected by review, the orchestrator issues
exactly 5 draft-generating remote calls (the `max_attempts` bound), reports
the user-visible failure outcome, and commits nothing: the durable
conversation is returned unchanged.  Tool calls never run in this scenario
(tools execute only after an approval), so none are counted. -/
theorem C3_draft_call_bound (toolExec : String → List (String × String) → ToolPayload)
    (fs : Fs) (now : Nat) (store : Store) (resps : List Resp)
    (verds : List ReviewCall) (prefs : List PrefilterOutcome) (u a : Nat)
    (hmt : ∀ r ∈ resps, r.stopReason ≠ StopReason.max_tokens)
    (hrej : ∀ vc ∈ verds, (review_response vc).approved = false)
    (hr5 : 5 ≤ resps.length) (hv5 : 5 ≤ verds.length)
    (hnt : lastUserIsToolResult store.messages = false)
    (hu : u < 50) (ha : a < 60) :
    generate_response_with_prefilter toolExec fs now store resps verds
        (PrefilterOutcome.scores u a :: prefs)
      = ⟨store, Outcome.failedAttempts, ⟨5, 5, 1⟩⟩ := by
  match resps, hr5 with
  | r0 :: rs, hr5 =>
  match verds, hv5 with
  | vc0 :: vcs, hv5 =>
    unfold generate_response_with_prefilter
    simp only [turnLoop, List.length_cons]
    rw [attemptLoop_first_reject_step 4 store store r0 rs vc0 vcs u a prefs ⟨0, 0, 0⟩
      (hmt r0 (List.mem_cons_self r0 rs)) hnt hu ha (hrej vc0 (List.mem_cons_self vc0 vcs))]
    obtain ⟨temp2, rs2, vs2, heq⟩ := attemptLoop_all_rejects true 4
      (appendFeedback store (review_response vc0).feedback) store rs vcs prefs ⟨1, 1, 1⟩
      (fun x hx => hmt x (List.mem_cons_of_mem r0 hx))
      (fun x hx => hrej x (List.mem_cons_of_mem vc0 hx))
      (by simp only [List.length_cons] at hr5; omega)
      (by simp only [List.length_cons] at hv5; omega)
    rw [heq]

/-- C2: after N rejections followed by one acceptance, the durable
conversation gains EXACTLY one new assistant message — the accepted terminal
answer; the rejected drafts and the review-feedback annotations only ever
touched the working copy, which is discarded. -/
theorem C2_exactly_one_commit (toolExec : String → List (String × String) → ToolPayload)
    (fs : Fs) (now : Nat) (store : Store) (drafts : List Resp) (final : Resp)
    (restr : List Resp) (rejects : List ReviewCall) (accept : ReviewCall)
    (restv : List ReviewCall) (prefs : List PrefilterOutcome) (u a : Nat)
    (hlen : drafts.length = rejects.length)
    (hb : rejects.length + 1 ≤ 5)
    (hmtd : ∀ r ∈ drafts, r.stopReason ≠ StopReason.max_tokens)
    (hmtf : final.stopReason ≠ StopReason.max_tokens)
    (hrej : ∀ vc ∈ rejects, (review_response vc).approved = false)
    (hacc : (review_response accept).approved = true)
    (hnt : lastUserIsToolResult store.messages = false)
    (hu : u < 50) (ha : a < 60)
    (hterm : toolResultsOf toolExec final = [])
    (hne : finalResponseOf final ≠ "")
    (hnetrim : stripChars (finalResponseOf final) ≠ "") :
    generate_response_with_prefilter toolExec fs now store (drafts ++ final :: restr)
        (rejects ++ accept :: restv) (PrefilterOutcome.scores u a :: prefs)
      = ⟨⟨store.messages ++ [⟨Role.assistant, Content.blocks (assistantContentOf final)⟩],
          update_last_api_call_timestamp store.filesContext now⟩,
         Outcome.finalText (stripChars (finalResponseOf final)),
         ⟨rejects.length + 1, rejects.length + 1, 1⟩⟩ := by
  match rejects, drafts, hlen with
  | [], [], _ =>
    unfold generate_response_with_prefilter
    refine turnLoop_commit true toolExec fs now _ store store final _ restr _ restv _ prefs
      1 1 1 hterm hne hnetrim ?_
    simpa using attemptLoop_first_accept_step 4 store store final restr accept restv u a
      prefs ⟨0, 0, 0⟩ hmtf hnt hu ha hacc
  | vc :: vcs, d :: ds, hlen =>
    unfold generate_response_with_prefilter
    obtain ⟨temp2, heq⟩ := attemptLoop_run_rejects true vcs ds 4
      (appendFeedback store (review_response vc).feedback) store final restr accept restv
      prefs ⟨1, 1, 1⟩
      (by simpa using hlen)
      (fun x hx => hrej x (List.mem_cons_of_mem vc hx))
      hacc
      (fun x hx => hmtd x (List.mem_cons_of_mem d hx))
      hmtf
      (by simp only [List.length_cons] at hb; omega)
    have hstats1 : (1 : Nat) + vcs.length + 1 = (vc :: vcs).length + 1 := by
      simp only [List.length_cons]
      omega
    refine turnLoop_commit true toolExec fs now _ store temp2 final _ restr _ restv _ prefs
      ((vc :: vcs).length + 1) ((vc :: vcs).length + 1) 1 hterm hne hnetrim ?_
    rw [List.cons_append, List.cons_append]
    rw [attemptLoop_first_reject_step 4 store store d (ds ++ final :: restr) vc
      (vcs ++ accept :: restv) u a prefs ⟨0, 0, 0⟩
      (hmtd d (List.mem_cons_self d ds)) hnt hu ha (hrej vc (List.mem_cons_self vc vcs))]
    rw [heq, hstats1]

/-- C7: a remote response with the length-limit stop reason is terminal: at
any attempt and in any state, the orchestrator assembles the partial answer
with the explanatory note, commits it directly to the DURABLE conversation as
the assistant turn, and returns with zero reviews consumed; at the turn level
the whole turn ends with outcome `truncated`, one remote call and zero
reviews. -/
theorem C7_truncation_is_terminal :
    (∀ (wire fp pr : Bool) (fuel : Nat) (temp durable : Store) (rs : List Resp)
       (verds : List ReviewCall) (prefs : List PrefilterOutcome) (stats : TurnStats)
       (r : Resp), r.stopReason = StopReason.max_tokens →
       attemptLoop wire (fuel + 1) ⟨temp, durable, r :: rs, verds, prefs, fp, pr, stats⟩
         = InnerOut.truncated
             ⟨temp, add_message durable Role.assistant (Content.blocks
                [Item.obj { btype := BType.text, text := (handle_max_tokens_exceeded r).1 }]),
              rs, verds, prefs, fp, pr,
              ⟨stats.remoteCalls + 1, stats.reviewCalls, stats.prefilterChecks⟩⟩
             (handle_max_tokens_exceeded r).1)
    ∧ (∀ (toolExec : String → List (String × String) → ToolPayload) (fs : Fs) (now : Nat)
         (store : Store) (r : Resp) (tail : List Resp) (verds : List ReviewCall)
         (prefs : List PrefilterOutcome), r.stopReason = StopReason.max_tokens →
         generate_response toolExec fs now store (r :: tail) verds prefs
           = ⟨⟨store.messages ++ [⟨Role.assistant, Content.blocks
                [Item.obj { btype := BType.text, text := (handle_max_tokens_exceeded r).1 }]⟩],
               store.filesContext⟩,
              Outcome.truncated (handle_max_tokens_exceeded r).1, ⟨1, 0, 0⟩⟩) := by
  have hpart1 : ∀ (wire fp pr : Bool) (fuel : Nat) (temp durable : Store) (rs : List Resp)
      (verds : List ReviewCall) (prefs : List PrefilterOutcome) (stats : TurnStats)
      (r : Resp), r.stopReason = StopReason.max_tokens →
      attemptLoop wire (fuel + 1) ⟨temp, durable, r :: rs, verds, prefs, fp, pr, stats⟩
        = InnerOut.truncated
            ⟨temp, add_message durable Role.assistant (Content.blocks
               [Item.obj { btype := BType.text, text := (handle_max_tokens_exceeded r).1 }]),
             rs, verds, prefs, fp, pr,
             ⟨stats.remoteCalls + 1, stats.reviewCalls, stats.prefilterChecks⟩⟩
            (handle_max_tokens_exceeded r).1 := by
    intro wire fp pr fuel temp durable rs verds prefs stats r hmt
    have hb : (r.stopReason == StopReason.max_tokens) = true := by
      simp [hmt]
    simp [attemptLoop, hb]
  refine ⟨hpart1, ?_⟩
  intro toolExec fs now store r tail verds prefs hmt
  unfold generate_response
  simp only [turnLoop, List.length_cons]
  rw [hpart1 false true false 4 store store tail verds prefs ⟨0, 0, 0⟩ r hmt]
  rfl

/-- Tool oracle that is never consulted in the concrete runs. -/
def c1Tools : String → List (String × String) → ToolPayload :=
  fun _ _ => { fields := [], isError := true }

/-- Trivial filesystem stub for concrete runs. -/
def c1Fs : Fs :=
  { isAbs := fun _ => true, abspath := id, relpath := id, readFile := fun _ => none }

/-- A one-user-message conversation used by the concrete runs. -/
def c1Store : Store :=
  { messages := [⟨Role.user, Content.scalar "hi"⟩],
    filesContext := { entries := [], lastApiCall := none } }

/-- A plain terminal text draft. -/
def c1Resp : Resp :=
  { stopReason := StopReason.end_turn, content := [RespBlock.rtext "Hello there."] }

/-- C1 (code bug evidence): a turn whose first draft is a terminal text
answer is approved immediately with ZERO pre-filter calls and ZERO full
reviews — even though the supplied pre-filter scores (40, 50) are below both
thresholds, so `assess_simplicity_clarity` (whose decision is the second
conjunct) would have mandated full review.  The pre-filter invocation in
`generate_response` is commented out (src/codai.py lines 1049–1054), which
contradicts the function docstring ("perform reviews until approved") and
leaves `InitialReview` dead code. -/
theorem C1_prefilter_never_runs :
    generate_response c1Tools c1Fs 7 c1Store [c1Resp] [] [PrefilterOutcome.scores 40 50]
      = ⟨⟨c1Store.messages ++ [⟨Role.assistant,
            Content.blocks [Item.obj { btype := BType.text, text := "Hello there." }]⟩],
          { entries := [], lastApiCall := some 7 }⟩,
         Outcome.finalText "Hello there.", ⟨1, 0, 0⟩⟩
    ∧ proceed_with_wise_counsel_decision 40 50 = true := by
  constructor
  · decide
  · decide


/-- Five terminal text drafts. -/
def c3Resps : List Resp := List.replicate 5 c1Resp

/-- Five rejecting review outcomes (a raised review call parses to
not-approved). -/
def c3Verds : List ReviewCall := List.replicate 5 (ReviewCall.exn "review failed")

/-- Witness for C3: five drafts, five rejections, failure reported. -/
theorem C3_witness :
    ((∀ r ∈ c3Resps, r.stopReason ≠ StopReason.max_tokens)
     ∧ (∀ vc ∈ c3Verds, (review_response vc).approved = false)
     ∧ 5 ≤ c3Resps.length ∧ 5 ≤ c3Verds.length
     ∧ lastUserIsToolResult c1Store.messages = false
     ∧ 40 < 50 ∧ 50 < 60)
    ∧ generate_response_with_prefilter c1Tools c1Fs 7 c1Store c3Resps c3Verds
        (PrefilterOutcome.scores 40 50 :: [])
      = ⟨c1Store, Outcome.failedAttempts, ⟨5, 5, 1⟩⟩ :=
  ⟨⟨by decide, by decide, by decide, by decide, by decide, by decide, by decide⟩,
   C3_draft_call_bound c1Tools c1Fs 7 c1Store c3Resps c3Verds [] 40 50
     (by decide) (by decide) (by decide) (by decide) (by decide) (by decide) (by decide)⟩

/-- The draft that gets rejected in the C2 witness run. -/
def c2Draft : Resp := { stopReason := StopReason.end_turn, content := [RespBlock.rtext "First try."] }

/-- A critic text whose approval tag parses to APPROVED. -/
def c2Accept : ReviewCall :=
  ReviewCall.ok "<final_verdict><total_score>total score: 95</total_score><approval_status>APPROVED</approval_status></final_verdict>"

/-- Witness for C2: one rejection, then an accepted draft, exactly one
assistant message committed. -/
theorem C2_witness :
    ([c2Draft].length = [ReviewCall.exn "too vague"].length
     ∧ [ReviewCall.exn "too vague"].length + 1 ≤ 5
     ∧ (∀ r ∈ [c2Draft], r.stopReason ≠ StopReason.max_tokens)
     ∧ c1Resp.stopReason ≠ StopReason.max_tokens
     ∧ (∀ vc ∈ [ReviewCall.exn "too vague"], (review_response vc).approved = false)
     ∧ (review_response c2Accept).approved = true
     ∧ lastUserIsToolResult c1Store.messages = false
     ∧ 40 < 50 ∧ 50 < 60
     ∧ toolResultsOf c1Tools c1Resp = []
     ∧ finalResponseOf c1Resp ≠ ""
     ∧ stripChars (finalResponseOf c1Resp) ≠ "")
    ∧ generate_response_with_prefilter c1Tools c1Fs 7 c1Store
        ([c2Draft] ++ c1Resp :: []) ([ReviewCall.exn "too vague"] ++ c2Accept :: [])
        (PrefilterOutcome.scores 40 50 :: [])
      = ⟨⟨c1Store.messages ++ [⟨Role.assistant, Content.blocks (assistantContentOf c1Resp)⟩],
          update_last_api_call_timestamp c1Store.filesContext 7⟩,
         Outcome.finalText (stripChars (finalResponseOf c1Resp)),
         ⟨[ReviewCall.exn "too vague"].length + 1, [ReviewCall.exn "too vague"].length + 1, 1⟩⟩ :=
  ⟨⟨by decide, by decide, by decide, by decide, by decide, by decide, by decide,
    by decide, by decide, by decide, by decide, by decide⟩,
   C2_exactly_one_commit c1Tools c1Fs 7 c1Store [c2Draft] c1Resp []
     [ReviewCall.exn "too vague"] c2Accept [] [] 40 50
     (by decide) (by decide) (by decide) (by decide) (by decide) (by decide) (by decide)
     (by decide) (by decide) (by decide) (by decide) (by decide)⟩

/-- A truncated draft (length-limit stop reason). -/
def c7Resp : Resp :=
  { stopReason := StopReason.max_tokens, content := [RespBlock.rtext "Partial answ"] }

/-- Witness for C7: a truncated first response commits the partial answer
and ends the turn with zero reviews. -/
theorem C7_witness :
    c7Resp.stopReason = StopReason.max_tokens
    ∧ generate_response c1Tools c1Fs 3 c1Store [c7Resp] [] []
        = ⟨⟨c1Store.messages ++ [⟨Role.assistant, Content.blocks
             [Item.obj { btype := BType.text, text := (handle_max_tokens_exceeded c7Resp).1 }]⟩],
            c1Store.filesContext⟩,
           Outcome.truncated (handle_max_tokens_exceeded c7Resp).1, ⟨1, 0, 0⟩⟩ :=
  ⟨rfl, C7_truncation_is_terminal.2 c1Tools c1Fs 3 c1Store c7Resp [] [] [] rfl⟩

end Codai
